import Mathlib

/-!
# Shallow embedding of the `node-ranking` service

The embedding covers the source files `gossip_spy.rs`, `http_endpoint.rs`,
`ranking_table.rs`, `rpc_request.rs` and `main.rs`.

Modelling conventions:
* A Solana `Pubkey` is an opaque identity; we model it as `Nat`.
* An `Ipv4Addr` is its 32-bit numeric value, modelled as `Nat`
  (Rust's `Ipv4Addr` ordering is lexicographic on the four big-endian
  octets, which coincides with numeric order of the `u32` value, and
  `Ipv4Addr::new(o0, o1, o2, 0)` applied to the octets of `n` is the
  numeric value `n / 256 * 256`).
* `IpAddr` is a sum of a V4 and a V6 payload.
* A `HashMap` is an association list with distinct keys; iteration order
  of the Rust map is unspecified, so theorems about per-identity facts
  quantify over the list.
* `Instant` timestamps and `Duration`s are `Nat` nanoseconds.
* The `tokio::watch` cell (`publish`/`borrow`) is modelled by explicit
  state passing: a refresh loop is a fold of a step function over the
  sequence of fetch outcomes.
-/

/-- `std::net::IpAddr`: either a V4 or a V6 address (payloads numeric). -/
inductive IpAddr where
  | v4 (a : Nat)
  | v6 (a : Nat)
deriving DecidableEq, Repr

/-- `true` exactly on V4 addresses (the `IpAddr::V4` match arm). -/
def IpAddr.isV4 : IpAddr → Bool
  | .v4 _ => true
  | .v6 _ => false

/-- `std::net::SocketAddr`: an IP address plus a port. -/
structure SocketAddr where
  ip : IpAddr
  port : Nat
deriving DecidableEq, Repr

/-- `gossip_spy.rs`: `struct Ports` — the per-identity Endpoint Record.
`gossip`, `serve_repair`, `turbine` are required; the rest are optional. -/
structure Ports where
  pubkey : Nat
  stake : Nat
  gossip : SocketAddr
  serve_repair : SocketAddr
  tpu_forwards_quic : Option SocketAddr
  tpu_quic : Option SocketAddr
  tpu_vote : Option SocketAddr
  tpu_vote_quic : Option SocketAddr
  turbine : SocketAddr
  alpenglow : Option SocketAddr
deriving DecidableEq, Repr

/-- `Ports::all_ips`, before the V4 filter: the `ips` vector pushed in
source order — the three required endpoints, then each present optional
endpoint (`tpu_forwards_quic`, `tpu_quic`, `tpu_vote`, `tpu_vote_quic`,
`alpenglow`). -/
def Ports.rawIps (p : Ports) : List IpAddr :=
  [p.gossip.ip, p.serve_repair.ip, p.turbine.ip]
    ++ (match p.tpu_forwards_quic with | some a => [a.ip] | none => [])
    ++ (match p.tpu_quic with | some a => [a.ip] | none => [])
    ++ (match p.tpu_vote with | some a => [a.ip] | none => [])
    ++ (match p.tpu_vote_quic with | some a => [a.ip] | none => [])
    ++ (match p.alpenglow with | some a => [a.ip] | none => [])

/-- `Ports::all_ips`: the collected endpoint IPs filtered to IPv4
(`filter_map` keeping only the `IpAddr::V4` arm). -/
def Ports.all_ips (p : Ports) : List Nat :=
  p.rawIps.filterMap fun ip => match ip with | .v4 a => some a | .v6 _ => none

/-- `ranking_table.rs`: `struct GossipData` — the Membership Snapshot. -/
structure GossipData where
  gossip_data : List (Nat × Ports)
  last_update : Nat
deriving DecidableEq, Repr

/-- `ranking_table.rs`: `struct StakeData` — the Stake Snapshot. -/
structure StakeData where
  stake_amounts : List (Nat × Nat)
  last_update : Nat
deriving DecidableEq, Repr

/-- `Default for GossipData`: empty map, `last_update` the `Instant::now()`
of the moment the default is constructed (passed in as `now`). -/
def GossipData.mkDefault (now : Nat) : GossipData :=
  { gossip_data := [], last_update := now }

/-- `Default for StakeData`: empty map, `last_update` the construction time. -/
def StakeData.mkDefault (now : Nat) : StakeData :=
  { stake_amounts := [], last_update := now }

/-- `HashMap::get` on the modelled map: first binding of the key, if any. -/
def lookupAmount : List (Nat × Nat) → Nat → Option Nat
  | [], _ => none
  | (k, v) :: rest, j => if k = j then some v else lookupAmount rest j

/-- `stakes.stake_amounts.get(identity).copied().unwrap_or_default()`:
the identity's stake, defaulting to `0` when absent. -/
def stakeOf (st : List (Nat × Nat)) (j : Nat) : Nat :=
  (lookupAmount st j).getD 0

/-- `solana_native_token::LAMPORTS_PER_SOL`. -/
def LAMPORTS_PER_SOL : Nat := 1000000000

/-- Nanoseconds in one second (`Duration` granularity). -/
def NANOS_PER_SEC : Nat := 1000000000

/-- `Duration::from_secs`, in nanoseconds. -/
def from_secs (s : Nat) : Nat := s * NANOS_PER_SEC

/-- `http_endpoint.rs`: `struct Descriptor`. -/
structure Descriptor where
  protocol : String
  address : SocketAddr
  max_mbps : Nat
  staked_only : Bool
deriving DecidableEq, Repr

/-- `Descriptor::quic`. -/
def Descriptor.quic (address : SocketAddr) : Descriptor :=
  { protocol := "QUIC", address := address, max_mbps := 100, staked_only := false }

/-- `Descriptor::udp_gossip`. -/
def Descriptor.udp_gossip (address : SocketAddr) : Descriptor :=
  { protocol := "UDP", address := address, max_mbps := 50, staked_only := false }

/-- `Descriptor::udp_control`. -/
def Descriptor.udp_control (address : SocketAddr) : Descriptor :=
  { protocol := "UDP", address := address, max_mbps := 10, staked_only := true }

/-- `Descriptor::udp_bulk`. -/
def Descriptor.udp_bulk (address : SocketAddr) : Descriptor :=
  { protocol := "UDP", address := address, max_mbps := 200, staked_only := true }

/-- `http_endpoint.rs`: `struct AllowlistEntry`. -/
structure AllowlistEntry where
  pubkey : Nat
  stake : Nat
  gossip : Descriptor
  serve_repair : Descriptor
  tpu_forwards_quic : Option Descriptor
  tpu_quic : Option Descriptor
  tpu_vote : Option Descriptor
  tpu_vote_quic : Option Descriptor
  turbine : Descriptor
  alpenglow : Option Descriptor
deriving DecidableEq, Repr

/-- `AllowlistEntry::new`. -/
def AllowlistEntry.new (ports : Ports) (stake : Nat) : AllowlistEntry :=
  { pubkey := ports.pubkey
    stake := stake
    gossip := Descriptor.udp_gossip ports.gossip
    serve_repair := Descriptor.udp_bulk ports.serve_repair
    tpu_forwards_quic := ports.tpu_forwards_quic.map Descriptor.quic
    tpu_quic := ports.tpu_quic.map Descriptor.quic
    tpu_vote := ports.tpu_vote.map Descriptor.udp_control
    tpu_vote_quic := ports.tpu_vote_quic.map Descriptor.quic
    turbine := Descriptor.udp_bulk ports.turbine
    alpenglow := ports.alpenglow.map Descriptor.udp_control }

/-- `get_allowlist_full`: one `AllowlistEntry` per entry of the Membership
Snapshot's map, with the stake looked up in the Stake Snapshot (0 when
absent). -/
def get_allowlist_full (g : List (Nat × Ports)) (st : List (Nat × Nat)) :
    List AllowlistEntry :=
  g.map fun kp => AllowlistEntry.new kp.2 (stakeOf st kp.1)

/-- `mask24`: zero the low 8 bits of a (u32-valued) IPv4 address —
`Ipv4Addr::new(octets[0], octets[1], octets[2], 0)`. -/
def mask24 (ip : Nat) : Nat := ip / 256 * 256

/-- `BTreeSet::insert` on the sorted-ascending, duplicate-free list view
of the set. -/
def insertSorted (n : Nat) : List Nat → List Nat
  | [] => [n]
  | m :: rest =>
    if n < m then n :: m :: rest
    else if n = m then m :: rest
    else m :: insertSorted n rest

/-- `aggregate_into_24s`: mask every address to its /24 network, insert
the masks into a `BTreeSet`, read the set back in ascending order. -/
def aggregate_into_24s (addrs : List Nat) : List Nat :=
  (addrs.map mask24).foldl (fun s ip => insertSorted ip s) []

/-- The loop of `get_allowlist_short` before aggregation: one pass over
the Membership Snapshot, appending each record's `all_ips` to `staked`
when its stake is strictly above the threshold and to `unstaked`
otherwise. -/
def shortBuckets (g : List (Nat × Ports)) (st : List (Nat × Nat))
    (t : Nat) : List Nat × List Nat :=
  g.foldl
    (fun r kp =>
      if t < stakeOf st kp.1 then (r.1 ++ kp.2.all_ips, r.2)
      else (r.1, r.2 ++ kp.2.all_ips))
    ([], [])

/-- `get_allowlist_short`: threshold defaults to `LAMPORTS_PER_SOL` when
the query parameter is absent; both buckets pass through
`aggregate_into_24s`. -/
def get_allowlist_short (g : List (Nat × Ports)) (st : List (Nat × Nat))
    (stake_threshold_sol : Option Nat) : List Nat × List Nat :=
  let t := stake_threshold_sol.getD LAMPORTS_PER_SOL
  let r := shortBuckets g st t
  (aggregate_into_24s r.1, aggregate_into_24s r.2)

/-- `get_health`: ages are `Instant::elapsed()` values in nanoseconds;
success (the freshness text, carrying both ages) iff the membership age
is strictly below 10 seconds, otherwise HTTP 500. -/
def get_health (gossip_age stake_age : Nat) : Except Nat (Nat × Nat) :=
  if gossip_age < from_secs 10 then .ok (gossip_age, stake_age)
  else .error 500

/-- `rpc_request.rs`: `struct VoteAccount` (deserialized RPC record). -/
structure VoteAccount where
  vote_pubkey : Nat
  node_pubkey : Nat
  activated_stake : Nat
deriving DecidableEq, Repr

/-- `rpc_request.rs`: `struct VoteAccountsResult`. -/
structure VoteAccountsResult where
  current : List VoteAccount
  delinquent : List VoteAccount
deriving DecidableEq, Repr

/-- `stake_amounts.entry(k).or_default().add_assign(v)`: add `v` to the
key's binding, inserting the key at 0 first when absent. -/
def insertAdd : List (Nat × Nat) → Nat → Nat → List (Nat × Nat)
  | [], k, v => [(k, v)]
  | (k', v') :: rest, k, v =>
    if k' = k then (k', v' + v) :: rest else (k', v') :: insertAdd rest k v

/-- The summation loop of `fetch_validator_ips`: fold `insertAdd` over
`vote_resp.result.current` (the `delinquent` list is not consumed). -/
def buildStakeAmounts (resp : VoteAccountsResult) : List (Nat × Nat) :=
  resp.current.foldl (fun m a => insertAdd m a.node_pubkey a.activated_stake) []

/-- `fetch_validator_ips`, successful parse: the Stake Snapshot built
from one RPC response, stamped with the construction time. -/
def fetch_validator_ips (resp : VoteAccountsResult) (now : Nat) : StakeData :=
  { stake_amounts := buildStakeAmounts resp, last_update := now }

/-- One cycle of `stakes_refresh_loop`: on a successful fetch the new
snapshot is published, on an error the published snapshot is left as it
was (log-and-continue). -/
def stakesRefreshStep (published : StakeData)
    (fetch : Except String StakeData) : StakeData :=
  match fetch with
  | .ok d => d
  | .error _ => published

/-- `stakes_refresh_loop` over a finite schedule of fetch outcomes:
fold the cycle step starting from the initially published snapshot. -/
def stakesRefreshRun (init : StakeData)
    (fetches : List (Except String StakeData)) : StakeData :=
  fetches.foldl stakesRefreshStep init

/-! ## Spec-side characterizations (used to state the claims) -/

/-- Spec's description of the `staked` bucket before aggregation: the
addresses of every record whose identity's stake is strictly above the
threshold, in snapshot order. -/
def stakedIpsSpec (g : List (Nat × Ports)) (st : List (Nat × Nat))
    (t : Nat) : List Nat :=
  (g.filter fun kp => decide (t < stakeOf st kp.1)).flatMap fun kp => kp.2.all_ips

/-- Spec's description of the `unstaked` bucket before aggregation: the
addresses of every record whose identity's stake is at or below the
threshold (identities absent from the Stake Snapshot count as stake 0). -/
def unstakedIpsSpec (g : List (Nat × Ports)) (st : List (Nat × Nat))
    (t : Nat) : List Nat :=
  (g.filter fun kp => !decide (t < stakeOf st kp.1)).flatMap fun kp => kp.2.all_ips

/-! ## Helper lemmas -/

theorem shortBuckets_foldl (st : List (Nat × Nat)) (t : Nat) :
    ∀ (g : List (Nat × Ports)) (accS accU : List Nat),
      g.foldl
        (fun r kp =>
          if t < stakeOf st kp.1 then (r.1 ++ kp.2.all_ips, r.2)
          else (r.1, r.2 ++ kp.2.all_ips))
        (accS, accU)
      = (accS ++ stakedIpsSpec g st t, accU ++ unstakedIpsSpec g st t) := by
  intro g
  induction g with
  | nil => intro accS accU; simp [stakedIpsSpec, unstakedIpsSpec]
  | cons kp rest ih =>
    intro accS accU
    by_cases h : t < stakeOf st kp.1
    · simp only [List.foldl_cons, if_pos h, ih]
      simp [stakedIpsSpec, unstakedIpsSpec, h]
    · simp only [List.foldl_cons, if_neg h, ih]
      simp [stakedIpsSpec, unstakedIpsSpec, h]

theorem shortBuckets_eq (g : List (Nat × Ports)) (st : List (Nat × Nat))
    (t : Nat) :
    shortBuckets g st t = (stakedIpsSpec g st t, unstakedIpsSpec g st t) := by
  have h := shortBuckets_foldl st t g [] []
  simpa [shortBuckets] using h

theorem mem_insertSorted (x n : Nat) :
    ∀ (l : List Nat), x ∈ insertSorted n l ↔ x = n ∨ x ∈ l := by
  intro l
  induction l with
  | nil => simp [insertSorted]
  | cons m rest ih =>
    simp only [insertSorted]
    by_cases h1 : n < m
    · simp [if_pos h1, List.mem_cons]
    · by_cases h2 : n = m
      · subst h2
        rw [if_neg h1, if_pos rfl]
        simp only [List.mem_cons]
        tauto
      · simp only [if_neg h1, if_neg h2, List.mem_cons, ih]
        tauto

theorem sorted_insertSorted (n : Nat) :
    ∀ (l : List Nat), l.Sorted (· < ·) → (insertSorted n l).Sorted (· < ·) := by
  intro l
  induction l with
  | nil => intro _; simp [insertSorted]
  | cons m rest ih =>
    intro hs
    rw [List.sorted_cons] at hs
    obtain ⟨hm, hrest⟩ := hs
    simp only [insertSorted]
    by_cases h1 : n < m
    · rw [if_pos h1, List.sorted_cons, List.sorted_cons]
      refine ⟨?_, hm, hrest⟩
      intro b hb
      rcases List.mem_cons.mp hb with rfl | hb
      · exact h1
      · exact h1.trans (hm b hb)
    · by_cases h2 : n = m
      · rw [if_neg h1, if_pos h2, List.sorted_cons]
        exact ⟨hm, hrest⟩
      · rw [if_neg h1, if_neg h2, List.sorted_cons]
        have hmn : m < n := by omega
        refine ⟨?_, ih hrest⟩
        intro b hb
        rcases (mem_insertSorted b n rest).mp hb with rfl | hb
        · exact hmn
        · exact hm b hb

theorem insertSorted_append (n : Nat) :
    ∀ (l : List Nat), (∀ m ∈ l, m < n) → insertSorted n l = l ++ [n] := by
  intro l
  induction l with
  | nil => intro _; simp [insertSorted]
  | cons m rest ih =>
    intro h
    have hmn : m < n := h m (List.mem_cons_self m rest)
    simp only [insertSorted, if_neg (by omega : ¬ n < m),
      if_neg (by omega : ¬ n = m), List.cons_append]
    rw [ih fun b hb => h b (List.mem_cons_of_mem m hb)]

theorem mem_aggFold :
    ∀ (l acc : List Nat) (x : Nat),
      x ∈ l.foldl (fun s ip => insertSorted ip s) acc ↔ x ∈ acc ∨ x ∈ l := by
  intro l
  induction l with
  | nil => simp
  | cons a rest ih =>
    intro acc x
    simp only [List.foldl_cons, ih, mem_insertSorted, List.mem_cons]
    tauto

theorem sorted_aggFold :
    ∀ (l acc : List Nat), acc.Sorted (· < ·) →
      (l.foldl (fun s ip => insertSorted ip s) acc).Sorted (· < ·) := by
  intro l
  induction l with
  | nil => intro acc h; simpa using h
  | cons a rest ih =>
    intro acc h
    exact ih (insertSorted a acc) (sorted_insertSorted a acc h)

theorem aggFold_of_sorted :
    ∀ (l acc : List Nat), (acc ++ l).Sorted (· < ·) →
      l.foldl (fun s ip => insertSorted ip s) acc = acc ++ l := by
  intro l
  induction l with
  | nil => intro acc _; simp
  | cons n rest ih =>
    intro acc h
    have hlt : ∀ m ∈ acc, m < n := by
      intro m hm
      exact (List.pairwise_append.mp h).2.2 m hm n (List.mem_cons_self n rest)
    simp only [List.foldl_cons]
    rw [insertSorted_append n acc hlt]
    have h' : ((acc ++ [n]) ++ rest).Sorted (· < ·) := by
      simpa using h
    rw [ih (acc ++ [n]) h']
    simp

theorem aggregate_sorted (l : List Nat) :
    (aggregate_into_24s l).Sorted (· < ·) :=
  sorted_aggFold (l.map mask24) [] (by simp)

theorem mem_aggregate (l : List Nat) (x : Nat) :
    x ∈ aggregate_into_24s l ↔ ∃ a ∈ l, mask24 a = x := by
  unfold aggregate_into_24s
  rw [mem_aggFold]
  simp

theorem mask24_idem (a : Nat) : mask24 (mask24 a) = mask24 a := by
  unfold mask24
  rw [Nat.mul_div_cancel _ (by norm_num : (0:Nat) < 256)]

theorem aggregate_idem (l : List Nat) :
    aggregate_into_24s (aggregate_into_24s l) = aggregate_into_24s l := by
  have hmap : (aggregate_into_24s l).map mask24 = aggregate_into_24s l := by
    conv_rhs => rw [show aggregate_into_24s l = (aggregate_into_24s l).map id by simp]
    refine List.map_congr_left ?_
    intro x hx
    obtain ⟨a, _, rfl⟩ := (mem_aggregate l x).mp hx
    exact mask24_idem a
  show ((aggregate_into_24s l).map mask24).foldl (fun s ip => insertSorted ip s) []
      = aggregate_into_24s l
  rw [hmap]
  have := aggFold_of_sorted (aggregate_into_24s l) [] (by simpa using aggregate_sorted l)
  simpa using this

theorem stakeOf_nil (j : Nat) : stakeOf [] j = 0 := rfl

theorem stakeOf_insertAdd :
    ∀ (m : List (Nat × Nat)) (k v j : Nat),
      stakeOf (insertAdd m k v) j
        = if j = k then stakeOf m j + v else stakeOf m j := by
  intro m
  induction m with
  | nil =>
    intro k v j
    by_cases h : j = k
    · subst h; simp [insertAdd, stakeOf, lookupAmount]
    · have h' : ¬ k = j := fun hh => h hh.symm
      simp [insertAdd, stakeOf, lookupAmount, h, h']
  | cons p rest ih =>
    intro k v j
    obtain ⟨k', v'⟩ := p
    by_cases hk : k' = k
    · subst hk
      by_cases hj : j = k'
      · subst hj; simp [insertAdd, stakeOf, lookupAmount]
      · have hj' : ¬ k' = j := fun hh => hj hh.symm
        simp [insertAdd, stakeOf, lookupAmount, hj, hj']
    · by_cases hj : k' = j
      · subst hj
        simp [insertAdd, stakeOf, lookupAmount, hk]
      · simp only [insertAdd, if_neg hk]
        simp [stakeOf, lookupAmount, hj]
        have := ih k v j
        simp [stakeOf] at this
        exact this

theorem stakeOf_buildFold :
    ∀ (l : List VoteAccount) (m : List (Nat × Nat)) (j : Nat),
      stakeOf (l.foldl (fun m a => insertAdd m a.node_pubkey a.activated_stake) m) j
        = stakeOf m j
          + ((l.filter fun a => a.node_pubkey == j).map VoteAccount.activated_stake).sum := by
  intro l
  induction l with
  | nil => intro m j; simp
  | cons a rest ih =>
    intro m j
    simp only [List.foldl_cons, ih, stakeOf_insertAdd]
    by_cases h : j = a.node_pubkey
    · subst h
      simp [List.filter_cons]
      omega
    · have h' : ¬ a.node_pubkey = j := fun hh => h hh.symm
      simp [List.filter_cons, h', h]

theorem map_v4_filterMap :
    ∀ (l : List IpAddr),
      (l.filterMap fun ip => match ip with | .v4 a => some a | .v6 _ => none).map IpAddr.v4
        = l.filter IpAddr.isV4 := by
  intro l
  induction l with
  | nil => rfl
  | cons ip rest ih =>
    cases ip with
    | v4 a => simp [List.filterMap_cons, List.filter_cons, IpAddr.isV4, ih]
    | v6 a => simp [List.filterMap_cons, List.filter_cons, IpAddr.isV4, ih]

/-- Generic counting fact used for the short-listing partition: splitting
a list by a Boolean predicate and flat-mapping each part gives the same
element counts as flat-mapping the whole list. -/
theorem count_flatMap_filter_partition {α : Type} (f : α → List Nat)
    (p : α → Bool) (x : Nat) :
    ∀ (l : List α),
      ((l.filter p).flatMap f).count x
          + ((l.filter fun a => !p a).flatMap f).count x
        = (l.flatMap f).count x := by
  intro l
  induction l with
  | nil => simp
  | cons a rest ih =>
    by_cases h : p a
    · simp only [List.filter_cons, h, if_pos trivial, Bool.not_true,
        List.flatMap_cons, List.count_append, if_neg Bool.false_ne_true]
      omega
    · have h' : p a = false := by simpa using h
      simp only [List.filter_cons, h', Bool.not_false, if_pos trivial,
        List.flatMap_cons, List.count_append, if_neg Bool.false_ne_true]
      omega

/-! ## Claims -/

/-- C4 (confirmed): for every input multiset of IPv4 addresses the
aggregator's output is strictly ascending in numeric order, has no
duplicate network, its members are exactly the /24-masked values of the
inputs (mask = zeroing the low 8 bits), and the aggregator is idempotent
on its own output. -/
theorem c4_aggregate_sorted_nodup_idem (l : List Nat) :
    (aggregate_into_24s l).Sorted (· < ·) ∧
    (aggregate_into_24s l).Nodup ∧
    (∀ x, x ∈ aggregate_into_24s l ↔ ∃ a ∈ l, mask24 a = x) ∧
    (∀ a, mask24 a = a - a % 256) ∧
    aggregate_into_24s (aggregate_into_24s l) = aggregate_into_24s l := by
  refine ⟨aggregate_sorted l, ?_, mem_aggregate l, ?_, aggregate_idem l⟩
  · exact (aggregate_sorted l).imp (fun h => Nat.ne_of_lt h)
  · intro a
    unfold mask24
    omega

/-- C6 (confirmed): a failed fetch cycle of the stake refresh loop
publishes nothing — the previously published Stake Snapshot keeps its
stake mapping and its timestamp — and the loop goes on to process the
remaining cycles exactly as if the failed cycle had not happened. -/
theorem c6_stake_failure_keeps_snapshot (published init : StakeData)
    (e : String) (pre post : List (Except String StakeData)) :
    stakesRefreshStep published (.error e) = published ∧
    (stakesRefreshStep published (.error e)).stake_amounts = published.stake_amounts ∧
    (stakesRefreshStep published (.error e)).last_update = published.last_update ∧
    stakesRefreshRun init (pre ++ .error e :: post) = stakesRefreshRun init (pre ++ post) := by
  refine ⟨rfl, rfl, rfl, ?_⟩
  simp [stakesRefreshRun, List.foldl_append, stakesRefreshStep]

/-- C7 (confirmed): the health check succeeds exactly when the membership
age is strictly below 10 seconds; the success value carries both ages but
the stake age never influences the outcome; on failure the response is
HTTP 500. -/
theorem c7_health_gated_by_membership_age (gossip_age stake_age : Nat) :
    ((get_health gossip_age stake_age).isOk = true ↔ gossip_age < from_secs 10) ∧
    (∀ sa, (get_health gossip_age sa).isOk = (get_health gossip_age stake_age).isOk) ∧
    (gossip_age < from_secs 10 →
      get_health gossip_age stake_age = .ok (gossip_age, stake_age)) ∧
    (¬ gossip_age < from_secs 10 →
      get_health gossip_age stake_age = .error 500) := by
  by_cases h : gossip_age < from_secs 10
  · refine ⟨by simp [get_health, h, Except.isOk, Except.toBool], ?_,
      fun _ => by simp [get_health, h], fun hc => absurd h hc⟩
    intro sa
    simp [get_health, h, Except.isOk, Except.toBool]
  · refine ⟨by simp [get_health, h, Except.isOk, Except.toBool], ?_,
      fun hc => absurd hc h, fun _ => by simp [get_health, h]⟩
    intro sa
    simp [get_health, h, Except.isOk, Except.toBool]

/-- C7 witness: concrete ages 9.5s and 1000s — healthy; the theorem is
applied at those ages. -/
theorem c7_health_gated_by_membership_age_witness :
    ((get_health 9500000000 1000000000000).isOk = true ↔ 9500000000 < from_secs 10) ∧
    (∀ sa, (get_health 9500000000 sa).isOk = (get_health 9500000000 1000000000000).isOk) ∧
    (9500000000 < from_secs 10 →
      get_health 9500000000 1000000000000 = .ok (9500000000, 1000000000000)) ∧
    (¬ 9500000000 < from_secs 10 →
      get_health 9500000000 1000000000000 = .error 500) :=
  c7_health_gated_by_membership_age 9500000000 1000000000000

/-- C8 (confirmed): the role-to-classification policy of
`AllowlistEntry::new` is fixed: gossip is (UDP, 50, not staked-only),
serve_repair and turbine are (UDP, 200, staked-only), the three QUIC TPU
roles are (QUIC, 100, not staked-only), tpu_vote and alpenglow are
(UDP, 10, staked-only); an absent optional endpoint maps through
`Option.map` to no descriptor. -/
theorem c8_descriptor_policy (p : Ports) (s : Nat) :
    (AllowlistEntry.new p s).gossip
        = { protocol := "UDP", address := p.gossip, max_mbps := 50, staked_only := false } ∧
    (AllowlistEntry.new p s).serve_repair
        = { protocol := "UDP", address := p.serve_repair, max_mbps := 200, staked_only := true } ∧
    (AllowlistEntry.new p s).turbine
        = { protocol := "UDP", address := p.turbine, max_mbps := 200, staked_only := true } ∧
    (AllowlistEntry.new p s).tpu_forwards_quic
        = p.tpu_forwards_quic.map
            (fun a => { protocol := "QUIC", address := a, max_mbps := 100, staked_only := false }) ∧
    (AllowlistEntry.new p s).tpu_quic
        = p.tpu_quic.map
            (fun a => { protocol := "QUIC", address := a, max_mbps := 100, staked_only := false }) ∧
    (AllowlistEntry.new p s).tpu_vote_quic
        = p.tpu_vote_quic.map
            (fun a => { protocol := "QUIC", address := a, max_mbps := 100, staked_only := false }) ∧
    (AllowlistEntry.new p s).tpu_vote
        = p.tpu_vote.map
            (fun a => { protocol := "UDP", address := a, max_mbps := 10, staked_only := true }) ∧
    (AllowlistEntry.new p s).alpenglow
        = p.alpenglow.map
            (fun a => { protocol := "UDP", address := a, max_mbps := 10, staked_only := true }) :=
  ⟨rfl, rfl, rfl, rfl, rfl, rfl, rfl, rfl⟩

/-- C9 (confirmed): `all_ips` keeps exactly the IPv4 members of the
record's endpoint IPs (V6 payloads are dropped by the filter), and
every address in either pre-aggregation short-listing bucket comes from
some record's `all_ips` — so IPv6 addresses reach neither bucket. -/
theorem c9_all_ips_v4_only (p : Ports) :
    (p.all_ips.map IpAddr.v4 = p.rawIps.filter IpAddr.isV4) ∧
    (∀ a, a ∈ p.all_ips → IpAddr.v4 a ∈ p.rawIps) ∧
    (∀ g st t x,
      x ∈ (shortBuckets g st t).1 ++ (shortBuckets g st t).2 →
        ∃ kp, kp ∈ g ∧ x ∈ kp.2.all_ips) := by
  have hmap : p.all_ips.map IpAddr.v4 = p.rawIps.filter IpAddr.isV4 :=
    map_v4_filterMap p.rawIps
  refine ⟨hmap, ?_, ?_⟩
  · intro a ha
    have : IpAddr.v4 a ∈ p.all_ips.map IpAddr.v4 := List.mem_map_of_mem _ ha
    rw [hmap] at this
    exact List.mem_of_mem_filter this
  · intro g st t x hx
    rw [shortBuckets_eq] at hx
    rcases List.mem_append.mp hx with hx | hx
    · obtain ⟨kp, hkp, hxk⟩ := List.mem_flatMap.mp hx
      exact ⟨kp, List.mem_of_mem_filter hkp, hxk⟩
    · obtain ⟨kp, hkp, hxk⟩ := List.mem_flatMap.mp hx
      exact ⟨kp, List.mem_of_mem_filter hkp, hxk⟩

/-! ## Fixtures for witnesses and counterexamples -/

/-- Fixture record: identity 1, every endpoint on IPv4 address 260
(numeric for 0.0.1.4, /24 network 256 = 0.0.1.0). -/
def portsA : Ports :=
  { pubkey := 1, stake := 0,
    gossip := { ip := .v4 260, port := 8001 },
    serve_repair := { ip := .v4 260, port := 8002 },
    tpu_forwards_quic := none, tpu_quic := none, tpu_vote := none,
    tpu_vote_quic := none,
    turbine := { ip := .v4 260, port := 8003 },
    alpenglow := none }

/-- Fixture record: identity 2, every endpoint on IPv4 address 261
(0.0.1.5, same /24 network 256 as `portsA`). -/
def portsB : Ports :=
  { pubkey := 2, stake := 0,
    gossip := { ip := .v4 261, port := 8001 },
    serve_repair := { ip := .v4 261, port := 8002 },
    tpu_forwards_quic := none, tpu_quic := none, tpu_vote := none,
    tpu_vote_quic := none,
    turbine := { ip := .v4 261, port := 8003 },
    alpenglow := none }

/-- Fixture record with an IPv6 address in an optional endpoint. -/
def portsV6 : Ports :=
  { pubkey := 3, stake := 0,
    gossip := { ip := .v4 513, port := 8001 },
    serve_repair := { ip := .v4 514, port := 8002 },
    tpu_forwards_quic := some { ip := .v6 99, port := 8003 },
    tpu_quic := none, tpu_vote := none, tpu_vote_quic := none,
    turbine := { ip := .v4 515, port := 8004 },
    alpenglow := none }

/-- Fixture Membership Snapshot map: identities 1 and 2. -/
def gFix : List (Nat × Ports) := [(1, portsA), (2, portsB)]

/-- Fixture Stake Snapshot map: identity 1 holds 2 SOL of stake,
identity 2 is absent. -/
def stFix : List (Nat × Nat) := [(1, 2000000000)]

/-- C1 counterexample input: an RPC response whose only vote account is
delinquent (node identity 7, activated stake 5). -/
def respCex : VoteAccountsResult :=
  { current := [],
    delinquent := [{ vote_pubkey := 11, node_pubkey := 7, activated_stake := 5 }] }

/-! ## Claims (continued) -/

/-- C1 (corrected) — amended statement: the Stake Snapshot built by
`fetch_validator_ips` gives identity `k` the sum of `activated_stake`
over the `current` vote accounts whose node identity is `k`; the
`delinquent` vote accounts contribute nothing. -/
theorem c1_stake_sums_current_only (resp : VoteAccountsResult) (now k : Nat) :
    stakeOf (fetch_validator_ips resp now).stake_amounts k
      = ((resp.current.filter fun a => a.node_pubkey == k).map
          VoteAccount.activated_stake).sum := by
  show stakeOf (buildStakeAmounts resp) k = _
  unfold buildStakeAmounts
  have h := stakeOf_buildFold resp.current [] k
  simpa [stakeOf_nil] using h

/-- C1 counterexample: with a response whose only vote account is
delinquent, the claim "amount for identity k equals the sum over current
and delinquent alike" fails — the snapshot holds 0 for identity 7 while
the current-plus-delinquent sum is 5. -/
theorem c1_delinquent_dropped_cex :
    ¬ stakeOf (fetch_validator_ips respCex 0).stake_amounts 7
        = (((respCex.current ++ respCex.delinquent).filter
              fun a => a.node_pubkey == 7).map
            VoteAccount.activated_stake).sum := by
  decide

/-- C2 (corrected) — amended statement: every IPv4 address extracted from
the Endpoint Records lands in exactly one of the two pre-aggregation
buckets (the two buckets' multiplicities of any address add up to its
multiplicity among all extracted addresses); after the two buckets are
aggregated independently, the same /24 network may appear in both output
lists when staked and unstaked identities share it. -/
theorem c2_buckets_partition_addresses (g : List (Nat × Ports))
    (st : List (Nat × Nat)) (t x : Nat) :
    (shortBuckets g st t).1.count x + (shortBuckets g st t).2.count x
      = (g.flatMap fun kp => kp.2.all_ips).count x := by
  rw [shortBuckets_eq]
  exact count_flatMap_filter_partition (fun kp => kp.2.all_ips)
    (fun kp => decide (t < stakeOf st kp.1)) x g

/-- C2 counterexample: identities 1 (staked, host 260) and 2 (unstaked,
host 261) share the /24 network 256, which therefore appears in both
aggregated output lists of the short listing — refuting the claim that
no /24 network appears in both. -/
theorem c2_shared_slash24_cex :
    256 ∈ (get_allowlist_short gFix stFix none).1 ∧
    256 ∈ (get_allowlist_short gFix stFix none).2 := by
  decide

/-- C3 (confirmed): the short listing's buckets are exactly the
strictly-greater-than-threshold split (a record whose identity's stake
equals the threshold satisfies the negated test and is classified
`unstaked`), an identity absent from the Stake Snapshot has stake 0, and
an absent threshold parameter defaults to `LAMPORTS_PER_SOL`
(1 SOL = 1 000 000 000 lamports). -/
theorem c3_threshold_classification (g : List (Nat × Ports))
    (st : List (Nat × Nat)) (t : Nat) :
    shortBuckets g st t = (stakedIpsSpec g st t, unstakedIpsSpec g st t) ∧
    (∀ kp, kp ∈ g → stakeOf st kp.1 = t →
        kp ∈ g.filter fun kp => !decide (t < stakeOf st kp.1)) ∧
    (∀ k, lookupAmount st k = none → stakeOf st k = 0) ∧
    LAMPORTS_PER_SOL = 1000000000 ∧
    get_allowlist_short g st none = get_allowlist_short g st (some LAMPORTS_PER_SOL) := by
  refine ⟨shortBuckets_eq g st t, ?_, ?_, rfl, rfl⟩
  · intro kp hkp heq
    refine List.mem_filter.mpr ⟨hkp, ?_⟩
    simp [heq]
  · intro k h
    simp [stakeOf, h]

/-- C3 witness: the theorem applied to the fixture snapshots at a
threshold equal to identity 1's stake. -/
theorem c3_threshold_classification_witness :
    shortBuckets gFix stFix 2000000000
        = (stakedIpsSpec gFix stFix 2000000000, unstakedIpsSpec gFix stFix 2000000000) ∧
    (∀ kp, kp ∈ gFix → stakeOf stFix kp.1 = 2000000000 →
        kp ∈ gFix.filter fun kp => !decide (2000000000 < stakeOf stFix kp.1)) ∧
    (∀ k, lookupAmount stFix k = none → stakeOf stFix k = 0) ∧
    LAMPORTS_PER_SOL = 1000000000 ∧
    get_allowlist_short gFix stFix none
        = get_allowlist_short gFix stFix (some LAMPORTS_PER_SOL) :=
  c3_threshold_classification gFix stFix 2000000000

/-- C5 (confirmed): with distinct map keys (the `HashMap` invariant) and
each record keyed by its own identity (how `watch_gossip` builds the
map), every identity of the Membership Snapshot yields exactly one entry
of the full listing, each entry's stake is the Stake Snapshot's value for
its identity (0 when absent), and every entry belongs to some identity of
the Membership Snapshot. -/
theorem c5_full_listing_total_join (g : List (Nat × Ports))
    (st : List (Nat × Nat)) (hnd : (g.map Prod.fst).Nodup)
    (hpk : ∀ kp ∈ g, kp.2.pubkey = kp.1) :
    (∀ k, k ∈ g.map Prod.fst →
      ((get_allowlist_full g st).filter fun e => e.pubkey == k).length = 1) ∧
    (∀ e, e ∈ get_allowlist_full g st →
      e.pubkey ∈ g.map Prod.fst ∧ e.stake = stakeOf st e.pubkey) := by
  constructor
  · intro k hk
    have h1 : ((get_allowlist_full g st).filter fun e => e.pubkey == k).length
        = (get_allowlist_full g st).countP (fun e => e.pubkey == k) :=
      (List.countP_eq_length_filter _ _).symm
    rw [h1]
    unfold get_allowlist_full
    rw [List.countP_map]
    have h2 : g.countP ((fun e => e.pubkey == k) ∘
          fun kp => AllowlistEntry.new kp.2 (stakeOf st kp.1))
        = g.countP (fun kp => kp.1 == k) := by
      refine List.countP_congr ?_
      intro kp hkp
      simp [AllowlistEntry.new, Function.comp, hpk kp hkp]
    rw [h2]
    have h3 : g.countP (fun kp => kp.1 == k)
        = (g.map Prod.fst).countP (fun x => x == k) := by
      rw [List.countP_map]
      rfl
    rw [h3]
    have h4 : (g.map Prod.fst).count k = 1 := List.count_eq_one_of_mem hnd hk
    simpa [List.count] using h4
  · intro e he
    unfold get_allowlist_full at he
    obtain ⟨kp, hkp, rfl⟩ := List.mem_map.mp he
    have hp : (AllowlistEntry.new kp.2 (stakeOf st kp.1)).pubkey = kp.1 := by
      simp [AllowlistEntry.new, hpk kp hkp]
    refine ⟨?_, ?_⟩
    · rw [hp]
      exact List.mem_map.mpr ⟨kp, hkp, rfl⟩
    · rw [hp]
      simp [AllowlistEntry.new]

/-- C5 witness: the theorem applied to the fixture snapshots, with both
hypotheses checked by evaluation. -/
theorem c5_full_listing_total_join_witness :
    (∀ k, k ∈ gFix.map Prod.fst →
      ((get_allowlist_full gFix stFix).filter fun e => e.pubkey == k).length = 1) ∧
    (∀ e, e ∈ get_allowlist_full gFix stFix →
      e.pubkey ∈ gFix.map Prod.fst ∧ e.stake = stakeOf stFix e.pubkey) :=
  c5_full_listing_total_join gFix stFix (by decide) (by decide)

/-- C9 witness: the theorem applied to a record with an IPv6 optional
endpoint. -/
theorem c9_all_ips_v4_only_witness :
    (portsV6.all_ips.map IpAddr.v4 = portsV6.rawIps.filter IpAddr.isV4) ∧
    (∀ a, a ∈ portsV6.all_ips → IpAddr.v4 a ∈ portsV6.rawIps) ∧
    (∀ g st t x,
      x ∈ (shortBuckets g st t).1 ++ (shortBuckets g st t).2 →
        ∃ kp, kp ∈ g ∧ x ∈ kp.2.all_ips) :=
  c9_all_ips_v4_only portsV6

/-- C10 (confirmed): before the first publish a Snapshot Cell holds the
default value — empty mapping, timestamp the construction instant — so
the full listing is empty, every short listing has two empty buckets,
and while fewer than 10 seconds have elapsed since construction the
health check succeeds regardless of the stake age. -/
theorem c10_defaults_before_first_publish (st : List (Nat × Nat))
    (t0 now sa : Nat) (h : now - t0 < from_secs 10) :
    (GossipData.mkDefault t0).gossip_data = [] ∧
    (GossipData.mkDefault t0).last_update = t0 ∧
    (StakeData.mkDefault t0).stake_amounts = [] ∧
    get_allowlist_full (GossipData.mkDefault t0).gossip_data st = [] ∧
    (∀ thr, get_allowlist_short (GossipData.mkDefault t0).gossip_data st thr = ([], [])) ∧
    (get_health (now - t0) sa).isOk = true := by
  refine ⟨rfl, rfl, rfl, rfl, fun thr => rfl, ?_⟩
  simp [get_health, h, Except.isOk, Except.toBool]

/-- C10 witness: construction at instant 100, queried 5 seconds later
with an arbitrarily old stake snapshot. -/
theorem c10_defaults_before_first_publish_witness :
    (GossipData.mkDefault 100).gossip_data = [] ∧
    (GossipData.mkDefault 100).last_update = 100 ∧
    (StakeData.mkDefault 100).stake_amounts = [] ∧
    get_allowlist_full (GossipData.mkDefault 100).gossip_data stFix = [] ∧
    (∀ thr, get_allowlist_short (GossipData.mkDefault 100).gossip_data stFix thr = ([], [])) ∧
    (get_health (5000000100 - 100) 999999999999).isOk = true :=
  c10_defaults_before_first_publish stFix 100 5000000100 999999999999 (by decide)
